import Mathlib

/-!
# Verification of the auxilia tool-policy, authorization and approval layer

Shallow embedding of the systems-level logic of the `auxilia` repository:
the web client under `src/web` (tool-policy mutation and evaluation,
OAuth-required error recognition, connection polling) together with
spec-modelled pieces of the FastAPI backend whose code is not part of the
source tree (authorization-callback handling, approval resolution, the
list-tools endpoint shape).

The tool-policy code is embedded from `src/unnamed/part_007`
(`getInitialStatus`, `handleStatusChange`) and from
`src/web/src/app/(protected)/agents/[id]/components/agent-mcp-tool.tsx`.
A persisted agent/provider binding carries two parallel representations:
a status map `tools : Record<string, ToolStatus> | null` and a legacy
`enabledTools : string[]` array in which the wildcard sentinel `"*"` means
"all tools enabled".
-/

namespace Auxilia

/-- `ToolStatus` from `src/web/src/types/agents.ts`:
`"always_allow" | "needs_approval" | "disabled"`. -/
inductive ToolStatus where
  | alwaysAllow
  | needsApproval
  | disabled
deriving DecidableEq, Repr

/-- The persisted agent/provider binding state that the tool components read
and write: the `tools` status map (`null` on legacy rows) and the legacy
`enabledTools` array (`"*"` is the wildcard sentinel).  The status map is an
association list because a JS record is read here only through key lookup. -/
structure AgentServerBinding where
  tools : Option (List (String × ToolStatus))
  enabledTools : List String
deriving DecidableEq, Repr

/-- The legacy fallback of `getInitialStatus` (`src/unnamed/part_007`,
lines 40-45): a tool is `always_allow` when the `enabledTools` array contains
its name or the wildcard sentinel, else `disabled`. -/
def legacyStatus (b : AgentServerBinding) (toolName : String) : ToolStatus :=
  if b.enabledTools.contains toolName || b.enabledTools.contains "*" then
    ToolStatus.alwaysAllow
  else
    ToolStatus.disabled

/-- `getInitialStatus` from `src/unnamed/part_007` (lines 35-46): first
consult the `tools` status map; for a tool absent from the map (or when the
map is `null`) fall back to the legacy `enabledTools` array.  This is the
client-side evaluation of the persisted tool policy. -/
def getInitialStatus (b : AgentServerBinding) (toolName : String) : ToolStatus :=
  match b.tools with
  | some m =>
    match m.lookup toolName with
    | some s => s
    | none => legacyStatus b toolName
  | none => legacyStatus b toolName

/-- `getInitialStatus` from the current
`src/web/.../agent-mcp-tool.tsx` (lines 32-37): the simplified map-only
variant that defaults to `always_allow` for a tool absent from the map.
It carries no mode concept and is kept for reference. -/
def getInitialStatusCurrent (b : AgentServerBinding) (toolName : String) :
    ToolStatus :=
  match b.tools with
  | some m =>
    match m.lookup toolName with
    | some s => s
    | none => ToolStatus.alwaysAllow
  | none => ToolStatus.alwaysAllow

/-- The `updatedTools` computation of `handleStatusChange`
(`src/unnamed/part_007`, lines 62-95), transcribed branch for branch:
enabling while the array holds the wildcard keeps `["*"]`; enabling while
explicit appends the tool when missing, then collapses to `["*"]` when the
array covers `allToolNames` at equal length; disabling while wildcard
expands to `allToolNames` minus the tool; disabling while explicit removes
the tool. -/
def updatedEnabledTools (currentEnabledTools : List String) (toolName : String)
    (newStatus : ToolStatus) (allToolNames : List String) : List String :=
  let hasWildcard := currentEnabledTools.contains "*"
  let isEnabled := newStatus ≠ ToolStatus.disabled
  if isEnabled then
    if hasWildcard then
      ["*"]
    else
      let u :=
        if currentEnabledTools.contains toolName then currentEnabledTools
        else currentEnabledTools ++ [toolName]
      if u.length == allToolNames.length
          && allToolNames.all (fun n => u.contains n) then
        ["*"]
      else
        u
  else
    if hasWildcard then
      allToolNames.filter (fun n => n != toolName)
    else
      currentEnabledTools.filter (fun t => t != toolName)

/-- Modelled from the spec: the backend `PATCH /agents/{id}/mcp-servers/{sid}`
handler (FastAPI backend, absent from the source tree) merges the
single-entry `tools` body `toolName: newStatus` into the persisted status
map, per §4.4 "Any mutation while already `explicit` simply updates the
single entry". -/
def recordSet (m : List (String × ToolStatus)) (k : String) (v : ToolStatus) :
    List (String × ToolStatus) :=
  if m.any (fun p => p.1 == k) then
    m.map (fun p => if p.1 == k then (k, v) else p)
  else
    m ++ [(k, v)]

/-- The persisted effect of a successful `handleStatusChange`
(`src/unnamed/part_007`, lines 50-110): the status map gets the single entry
`toolName ↦ newStatus` (merge spec-modelled, see `recordSet`) and the legacy
array becomes `updatedEnabledTools`.  This is the code's `SetToolStatus`. -/
def setToolStatus (b : AgentServerBinding) (toolName : String)
    (newStatus : ToolStatus) (allToolNames : List String) : AgentServerBinding :=
  { tools := some (recordSet (b.tools.getD []) toolName newStatus)
    enabledTools := updatedEnabledTools b.enabledTools toolName newStatus allToolNames }

/-- A brand-new wildcard binding: no status map yet, legacy array `["*"]`. -/
def wildcardBinding : AgentServerBinding :=
  { tools := none, enabledTools := ["*"] }

/-- The observable state of one tool row: the displayed `toolStatus` React
state plus the persisted binding behind the PATCH endpoint. -/
structure ToolRowState where
  displayed : ToolStatus
  binding : AgentServerBinding
deriving DecidableEq, Repr

/-- `handleStatusChange` from `src/unnamed/part_007` (lines 50-110) as a
state transformer: the displayed status is set optimistically, then the
PATCH either persists `setToolStatus` (success path) or throws, in which
case the catch block restores `previousStatus` and the persisted binding is
untouched. -/
def handleStatusChange (st : ToolRowState) (toolName : String)
    (newStatus : ToolStatus) (allToolNames : List String)
    (patchSucceeds : Bool) : ToolRowState :=
  let previousStatus := st.displayed
  if patchSucceeds then
    { displayed := newStatus
      binding := setToolStatus st.binding toolName newStatus allToolNames }
  else
    { displayed := previousStatus, binding := st.binding }

/-- The poll interval of the connection poll in `fetchTools`
(`src/unnamed/part_006`, line 130 and `agent-mcp-server.tsx`, line 137):
`setInterval(..., 2000)`. -/
def pollIntervalMs : Nat := 2000

/-- The cutoff of the connection poll (`setTimeout(..., 60000)` clearing the
interval, `src/unnamed/part_006`, lines 132-135). -/
def pollTimeoutMs : Nat := 60000

/-- Discrete-time model of the polling loop of `fetchTools` when the
provider never connects: the interval timer fires at `intervalMs * (k+1)`
for `k = 0, 1, ...`, and the cutoff timer cancels it at `timeoutMs`, so the
ticks that run are exactly those due by the cutoff. -/
def pollTicks (intervalMs timeoutMs : Nat) : List Nat :=
  (List.range (timeoutMs / intervalMs)).map (fun k => intervalMs * (k + 1))

/-- Modelled from the spec: the `AuthorizationSession` record of the
Authorization Broker (§3), whose backend implementation is absent from the
source tree — state token, provider/user pair, PKCE verifier, lifetime. -/
structure AuthorizationSession where
  state : String
  providerId : String
  userId : String
  codeVerifier : String
  createdAt : Nat
  expiresAt : Nat
deriving DecidableEq, Repr

/-- A message published on the Correlation Channel (Redis pub/sub in the
backend README): the channel key is the `state` token and the payload the
authorization code. -/
structure ChannelMessage where
  key : String
  code : String
deriving DecidableEq, Repr

/-- Outcome of `HandleCallback` towards the provider-facing endpoint. -/
inductive CallbackResult where
  | ok
  | invalidState
deriving DecidableEq, Repr

/-- Server-side session store of the Authorization Broker, keyed by the
`state` token. -/
structure BrokerState where
  sessions : List (String × AuthorizationSession)
deriving DecidableEq, Repr

/-- Modelled from the spec: `HandleCallback(providerId, code, state)` of the
Authorization Broker (§4.1), whose backend implementation is absent from
the source tree.  Looking up the session by `state`: when none exists or it
is expired, the result is `InvalidState` and nothing is published; when
valid, the pair `(code, state)` is published exactly once on the channel
keyed by `state` and the session is deleted.  The third component returns
the list of messages published by the call. -/
def handleCallback (st : BrokerState) (code state : String) (now : Nat) :
    CallbackResult × BrokerState × List ChannelMessage :=
  match st.sessions.lookup state with
  | none => (CallbackResult.invalidState, st, [])
  | some sess =>
    if now < sess.expiresAt then
      (CallbackResult.ok,
        { sessions := st.sessions.filter (fun p => p.1 != state) },
        [{ key := state, code := code }])
    else
      (CallbackResult.invalidState, st, [])

/-- A concrete broker state with one live session, used as witness input. -/
def sampleSession : AuthorizationSession :=
  { state := "abc123", providerId := "notion", userId := "u1"
    codeVerifier := "v", createdAt := 0, expiresAt := 300 }

/-- Broker store holding exactly `sampleSession`. -/
def sampleBroker : BrokerState :=
  { sessions := [("abc123", sampleSession)] }

/-- Resolution state of a `PendingApproval` (§3 of the spec):
`pending | approved | rejected`. -/
inductive ApprovalResolution where
  | pending
  | approved
  | rejected
deriving DecidableEq, Repr

/-- Modelled from the spec: the `PendingApproval` record of the Approval
Coordinator (§3), whose backend implementation is absent from the source
tree — call identity, captured suspension data, resolution state. -/
structure PendingApproval where
  callId : String
  agentId : String
  threadId : String
  toolName : String
  arguments : String
  requestedAt : Nat
  resolution : ApprovalResolution
  resolvedAt : Option Nat
deriving DecidableEq, Repr

/-- Modelled from the spec: the single-record transition of
`Resolve(callId, approved)` (§4.5) — a `pending` record becomes `approved`
or `rejected` with a resolution time; a record that is already terminal is
left unchanged and the original resolution is returned (idempotent
resolution). -/
def resolveApproval (p : PendingApproval) (approved : Bool) (now : Nat) :
    PendingApproval × ApprovalResolution :=
  match p.resolution with
  | ApprovalResolution.pending =>
    let r := if approved then ApprovalResolution.approved
             else ApprovalResolution.rejected
    ({ p with resolution := r, resolvedAt := some now }, r)
  | r => (p, r)

/-- Modelled from the spec: `Resolve` over the persisted store of
`PendingApproval` records keyed by `callId` (§4.5, backend absent from the
source tree).  An unknown `callId` is a no-op; otherwise the matching
record is transitioned via `resolveApproval` and the returned resolution is
reported. -/
def resolveCall (store : List (String × PendingApproval)) (callId : String)
    (approved : Bool) (now : Nat) :
    List (String × PendingApproval) × Option ApprovalResolution :=
  match store.lookup callId with
  | none => (store, none)
  | some p =>
    let q := resolveApproval p approved now
    (store.map (fun e => if e.1 == callId then (callId, q.1) else e), some q.2)

/-- A concrete pending approval record, used as witness input. -/
def samplePending : PendingApproval :=
  { callId := "call1", agentId := "agent1", threadId := "thread1"
    toolName := "write", arguments := "args", requestedAt := 0
    resolution := ApprovalResolution.pending, resolvedAt := none }

/-- Approval store holding exactly `samplePending`. -/
def sampleApprovalStore : List (String × PendingApproval) :=
  [("call1", samplePending)]

/-- The error shape the client inspects in `fetchTools`
(`src/unnamed/part_006`, lines 75-89 and `agent-mcp-server.tsx`,
lines 82-96): an HTTP failure with a status and the set of fields present
in its JSON body.  The chain of `typeof` guards in the source collapses to
field-presence checks in this typed model. -/
structure ApiFailure where
  status : Nat
  bodyFields : List String
deriving DecidableEq, Repr

/-- The client-side recognizer from `fetchTools` and `handleConnect`
(`src/unnamed/part_003`, lines 74-87): authorization is started exactly
when a response error exists, its status is 401 and its body carries an
`auth_url` field. -/
def isOAuthRequiredError : Option ApiFailure → Bool
  | none => false
  | some r => r.status == 401 && r.bodyFields.contains "auth_url"

/-- Modelled from the spec: outcome of
`GET /providers/{id}/list-tools` (§6, backend absent from the source
tree) — either 200 with the tool list or 401 with an
`auth_url`/`state` body. -/
inductive ListToolsOutcome where
  | ok (tools : List String)
  | authRequired (authUrl state : String)
deriving DecidableEq, Repr

/-- Modelled from the spec: the list-tools endpoint returns the tool list
when the caller holds a valid token and otherwise implicitly starts
authorization and answers 401 with the authorization URL and state. -/
def listToolsEndpoint (hasValidToken : Bool) (tools : List String)
    (authUrl state : String) : ListToolsOutcome :=
  if hasValidToken then ListToolsOutcome.ok tools
  else ListToolsOutcome.authRequired authUrl state

/-- The failure channel of a list-tools outcome as the HTTP client observes
it: a 200 produces no error; the 401 outcome produces a failure with
status 401 and an `auth_url`/`state` body. -/
def outcomeFailure : ListToolsOutcome → Option ApiFailure
  | ListToolsOutcome.ok _ => none
  | ListToolsOutcome.authRequired _ _ =>
    some { status := 401, bodyFields := ["auth_url", "state"] }

/-! ## Helper lemmas -/

theorem contains_true_of_mem {l : List String} {a : String} (h : a ∈ l) :
    l.contains a = true := List.elem_iff.mpr h

theorem contains_false_of_not_mem {l : List String} {a : String} (h : a ∉ l) :
    l.contains a = false := by
  show l.elem a = false
  simp [List.elem_iff, h]

theorem lookup_single_ne {T n : String} {v : ToolStatus} (h : n ≠ T) :
    ([(T, v)]).lookup n = none := by
  simp [List.lookup, beq_eq_false_iff_ne.mpr h]

/-- Disabling a tool on a fresh wildcard binding, computed. -/
theorem setToolStatus_wildcard_disable_eq (T : String) (A : List String) :
    setToolStatus wildcardBinding T ToolStatus.disabled A
      = { tools := some [(T, ToolStatus.disabled)]
          enabledTools := A.filter (fun x => x != T) } := by
  simp [setToolStatus, wildcardBinding, recordSet, updatedEnabledTools]

/-- Re-enabling the same tool on the intermediate binding, computed. -/
theorem setToolStatus_explicit_enable_eq (T : String) (E : List String)
    (A : List String) :
    setToolStatus { tools := some [(T, ToolStatus.disabled)], enabledTools := E }
        T ToolStatus.alwaysAllow A
      = { tools := some [(T, ToolStatus.alwaysAllow)]
          enabledTools := updatedEnabledTools E T ToolStatus.alwaysAllow A } := by
  simp [setToolStatus, recordSet]

/-- After expanding the wildcard minus `T` and re-enabling `T`, every other
tool of `A` is either in the resulting legacy array or the array collapsed
back to the wildcard. -/
theorem roundtrip_enabled_mem (T n : String) (A : List String) (hn : n ∈ A)
    (hnT : n ≠ T) :
    n ∈ updatedEnabledTools (A.filter (fun x => x != T)) T ToolStatus.alwaysAllow A
      ∨ "*" ∈ updatedEnabledTools (A.filter (fun x => x != T)) T ToolStatus.alwaysAllow A := by
  simp only [updatedEnabledTools]
  split
  · split
    · exact Or.inr (by simp)
    · split
      · rename_i hcontains
        exact absurd (List.mem_filter.mp (List.elem_iff.mp hcontains)).2
          (by simp [bne])
      · split
        · exact Or.inr (by simp)
        · refine Or.inl (List.mem_append.mpr (Or.inl ?_))
          exact List.mem_filter.mpr ⟨hn, by simp [bne, beq_eq_false_iff_ne.mpr hnT]⟩
  · rename_i hfalse
    exact absurd (by decide : ToolStatus.alwaysAllow ≠ ToolStatus.disabled) hfalse

/-- Core of the collapse condition: with a duplicate-free tool universe the
length-and-coverage test of `handleStatusChange` holds exactly when the
updated legacy array covers `allToolNames`. -/
theorem collapse_cond_iff (A E u : List String) (T : String)
    (hA : A.Nodup) (hu : u.Nodup) (hustar : "*" ∉ u)
    (humem : ∀ x, x ∈ u ↔ x ∈ E ∨ x = T)
    (hsub : ∀ x ∈ E, x ∈ A) (hT : T ∈ A) :
    (if (u.length == A.length && A.all fun n => u.contains n) = true
        then (["*"] : List String) else u) = ["*"]
      ↔ ∀ n ∈ A, n ∈ E ∨ n = T := by
  constructor
  · intro hres
    split at hres
    · rename_i hcond
      rw [Bool.and_eq_true] at hcond
      have hall := hcond.2
      intro n hnA
      exact (humem n).mp (List.elem_iff.mp (List.all_eq_true.mp hall n hnA))
    · exact absurd (hres ▸ (by simp : "*" ∈ (["*"] : List String))) hustar
  · intro hcov
    have hsubA : u ⊆ A := by
      intro x hx
      rcases (humem x).mp hx with hE | rfl
      · exact hsub x hE
      · exact hT
    have hsupA : A ⊆ u := fun n hn => (humem n).mpr (hcov n hn)
    have hlen : u.length = A.length :=
      Nat.le_antisymm (List.subperm_of_subset hu hsubA).length_le
        (List.subperm_of_subset hA hsupA).length_le
    have hcond : (u.length == A.length && A.all fun n => u.contains n) = true := by
      rw [Bool.and_eq_true]
      exact ⟨beq_iff_eq.mpr hlen,
        List.all_eq_true.mpr fun n hn => contains_true_of_mem (hsupA hn)⟩
    rw [if_pos hcond]

/-- Every poll tick of the modelled loop is due no later than the cutoff. -/
theorem pollTicks_le_timeout (intervalMs timeoutMs : Nat) :
    ∀ t ∈ pollTicks intervalMs timeoutMs, t ≤ timeoutMs := by
  intro t ht
  simp only [pollTicks, List.mem_map, List.mem_range] at ht
  obtain ⟨k, hk, rfl⟩ := ht
  calc intervalMs * (k + 1) ≤ intervalMs * (timeoutMs / intervalMs) :=
        Nat.mul_le_mul_left intervalMs hk
    _ ≤ timeoutMs := by
        rw [Nat.mul_comm]
        exact Nat.div_mul_le_self timeoutMs intervalMs

/-- Filtering out a key removes it from lookup. -/
theorem lookup_filter_self_none (l : List (String × AuthorizationSession))
    (s : String) :
    (l.filter (fun p => p.1 != s)).lookup s = none := by
  induction l with
  | nil => rfl
  | cons hd tl ih =>
    rcases hd with ⟨k, v⟩
    by_cases hk : k = s
    · subst hk
      simp only [List.filter, bne, beq_self_eq_true, Bool.not_true]
      exact ih
    · have h1 : (k != s) = true := by simp [bne, beq_eq_false_iff_ne.mpr hk]
      have h2 : (s == k) = false := beq_eq_false_iff_ne.mpr (Ne.symm hk)
      simp only [List.filter, h1, List.lookup, h2]
      exact ih

/-- Setting an entry present in the store makes lookup return the new
record. -/
theorem lookup_map_set (l : List (String × PendingApproval)) (c : String)
    (q p : PendingApproval) (hl : l.lookup c = some p) :
    (l.map (fun e => if e.1 == c then (c, q) else e)).lookup c = some q := by
  induction l with
  | nil => simp at hl
  | cons hd tl ih =>
    rcases hd with ⟨k, v⟩
    by_cases hk : k = c
    · subst hk
      simp [List.map, List.lookup_cons]
    · have h2 : (c == k) = false := beq_eq_false_iff_ne.mpr (Ne.symm hk)
      have h3 : (k == c) = false := beq_eq_false_iff_ne.mpr hk
      rw [List.lookup_cons, h2] at hl
      simp only [List.map, h3, Bool.false_eq_true, if_false, List.lookup_cons, h2]
      exact ih hl

/-- Overwriting the same entry twice equals overwriting it once. -/
theorem map_set_idem (l : List (String × PendingApproval)) (c : String)
    (q : PendingApproval) :
    (l.map (fun e => if e.1 == c then (c, q) else e)).map
        (fun e => if e.1 == c then (c, q) else e)
      = l.map (fun e => if e.1 == c then (c, q) else e) := by
  rw [List.map_map]
  apply List.map_congr_left
  intro e _
  by_cases h : e.1 = c
  · simp [Function.comp, beq_iff_eq.mpr h]
  · simp [Function.comp, beq_eq_false_iff_ne.mpr h]

/-- Unfolding of `resolveCall` when the record exists. -/
theorem resolveCall_state (store : List (String × PendingApproval))
    (callId : String) (approved : Bool) (now : Nat) (p : PendingApproval)
    (hlook : store.lookup callId = some p) :
    resolveCall store callId approved now =
      (store.map (fun e => if e.1 == callId
          then (callId, (resolveApproval p approved now).1) else e),
        some (resolveApproval p approved now).2) := by
  simp [resolveCall, hlook]

/-- Resolving an already-approved record is a no-op returning the original
resolution. -/
theorem resolveApproval_terminal (p : PendingApproval) (b : Bool) (now : Nat)
    (h : p.resolution = ApprovalResolution.approved) :
    resolveApproval p b now = (p, ApprovalResolution.approved) := by
  simp [resolveApproval, h]

/-! ## Claim theorems -/

/-- Claim C1: starting from a wildcard policy, applying `SetToolStatus` to
disable a tool `T` and then applying it again to re-enable `T` yields a
policy for which the evaluation (`getInitialStatus`) returns the same
result as under the original wildcard policy for every tool name in
`allToolNames` (round-trip law). -/
theorem wildcard_disable_enable_roundtrip (T : String) (A : List String)
    (n : String) (hn : n ∈ A) :
    getInitialStatus
      (setToolStatus (setToolStatus wildcardBinding T ToolStatus.disabled A)
        T ToolStatus.alwaysAllow A) n
      = getInitialStatus wildcardBinding n := by
  have hrhs : getInitialStatus wildcardBinding n = ToolStatus.alwaysAllow := by
    simp [getInitialStatus, wildcardBinding, legacyStatus]
  rw [hrhs, setToolStatus_wildcard_disable_eq, setToolStatus_explicit_enable_eq]
  by_cases hnT : n = T
  · subst hnT
    simp [getInitialStatus]
  · rw [getInitialStatus]
    simp only [lookup_single_ne hnT]
    rw [legacyStatus]
    rcases roundtrip_enabled_mem T n A hn hnT with h | h
    · simp only [contains_true_of_mem h, Bool.true_or, if_true]
    · simp only [contains_true_of_mem h, Bool.or_true, if_true]

/-- Witness for C1 at the concrete universe `["a", "b"]`, disabling and
re-enabling `"a"` and evaluating `"b"`. -/
theorem wildcard_disable_enable_roundtrip_witness :
    ("b" ∈ ["a", "b"]) ∧
    getInitialStatus
      (setToolStatus (setToolStatus wildcardBinding "a" ToolStatus.disabled ["a", "b"])
        "a" ToolStatus.alwaysAllow ["a", "b"]) "b"
      = getInitialStatus wildcardBinding "b" :=
  ⟨by decide, wildcard_disable_enable_roundtrip "a" ["a", "b"] "b" (by decide)⟩

/-- Claim C2 counterexample: the blanket fail-closed claim is false on the
code at a state the code itself reaches.  Disabling `write` from the
wildcard binding over `["search", "write"]` yields the explicit state with
status map `write ↦ disabled` and legacy array `["search"]`; there the tool
`search` is absent from the status map yet evaluates to `always_allow`
through the legacy fallback of `getInitialStatus` (`src/unnamed/part_007`,
lines 40-45) — not `disabled`.  The map-only variant of the current
`agent-mcp-tool.tsx` even defaults every unmapped tool to `always_allow`
outright on the same state. -/
theorem evaluate_explicit_unmapped_always_allow_cex :
    ("*" ∉ (setToolStatus wildcardBinding "write" ToolStatus.disabled
        ["search", "write"]).enabledTools) ∧
    (((setToolStatus wildcardBinding "write" ToolStatus.disabled
        ["search", "write"]).tools.getD []).lookup "search" = none) ∧
    getInitialStatus
        (setToolStatus wildcardBinding "write" ToolStatus.disabled ["search", "write"])
        "search" = ToolStatus.alwaysAllow ∧
    getInitialStatusCurrent
        (setToolStatus wildcardBinding "write" ToolStatus.disabled ["search", "write"])
        "search" = ToolStatus.alwaysAllow := by
  decide

/-- Claim C2 (amended): in explicit mode (no wildcard sentinel in the
legacy array) a tool absent from the status map falls back to the legacy
`enabledTools` array, and evaluates to `disabled` exactly when it is absent
from that array as well; a map-absent tool the legacy array still lists
evaluates `always_allow`.  Scenario B of the spec (the witness below) is
the both-absent case. -/
theorem evaluate_unmapped_absent_legacy_disabled (b : AgentServerBinding)
    (m : List (String × ToolStatus)) (toolName : String)
    (hm : b.tools = some m)
    (hexp : "*" ∉ b.enabledTools)
    (habsent : m.lookup toolName = none)
    (hnot : toolName ∉ b.enabledTools) :
    getInitialStatus b toolName = ToolStatus.disabled := by
  rw [getInitialStatus, hm]
  simp only [habsent]
  rw [legacyStatus]
  rw [if_neg]
  intro hcontra
  rcases Bool.or_eq_true_iff.mp hcontra with h | h
  · exact hnot (List.elem_iff.mp h)
  · exact hexp (List.elem_iff.mp h)

/-- Witness for the amended C2, Scenario B of the spec: under the explicit
policy mapping `search` to always-allow and `write` to needs-approval, the
tool `delete` — absent from the map and from the legacy array — evaluates
to `disabled`. -/
theorem evaluate_unmapped_absent_legacy_disabled_witness :
    (([("search", ToolStatus.alwaysAllow), ("write", ToolStatus.needsApproval)]).lookup
        "delete" = none ∧ "delete" ∉ ["search", "write"]) ∧
    getInitialStatus
      { tools := some [("search", ToolStatus.alwaysAllow), ("write", ToolStatus.needsApproval)]
        enabledTools := ["search", "write"] } "delete" = ToolStatus.disabled :=
  ⟨⟨by decide, by decide⟩,
    evaluate_unmapped_absent_legacy_disabled _ _ "delete" rfl (by decide) (by decide)
      (by decide)⟩

/-- Claim C3: disabling a tool `T` while the policy is wildcard converts it
to explicit — the wildcard sentinel is gone, the legacy array is
`allToolNames` minus `T` — and evaluation maps `T` to the requested
`disabled` status and every other name of `allToolNames` to
`always_allow`. -/
theorem disable_from_wildcard_explicit (T n : String) (A : List String)
    (hstar : "*" ∉ A) (hn : n ∈ A) :
    "*" ∉ (setToolStatus wildcardBinding T ToolStatus.disabled A).enabledTools ∧
    (setToolStatus wildcardBinding T ToolStatus.disabled A).enabledTools
        = A.filter (fun x => x != T) ∧
    getInitialStatus (setToolStatus wildcardBinding T ToolStatus.disabled A) T
        = ToolStatus.disabled ∧
    (n ≠ T →
      getInitialStatus (setToolStatus wildcardBinding T ToolStatus.disabled A) n
        = ToolStatus.alwaysAllow) := by
  rw [setToolStatus_wildcard_disable_eq]
  refine ⟨?_, rfl, ?_, ?_⟩
  · intro hmem
    exact hstar (List.mem_filter.mp hmem).1
  · simp [getInitialStatus]
  · intro hnT
    rw [getInitialStatus]
    simp only [lookup_single_ne hnT]
    rw [legacyStatus]
    have hmem : n ∈ A.filter (fun x => x != T) :=
      List.mem_filter.mpr ⟨hn, by simp [bne, beq_eq_false_iff_ne.mpr hnT]⟩
    simp only [contains_true_of_mem hmem, Bool.true_or, if_true]

/-- Witness for C3: disabling `"a"` on a wildcard binding over
`["a", "b"]`. -/
theorem disable_from_wildcard_explicit_witness :
    (("*" ∉ ["a", "b"]) ∧ "b" ∈ ["a", "b"]) ∧
    ("*" ∉ (setToolStatus wildcardBinding "a" ToolStatus.disabled ["a", "b"]).enabledTools ∧
      (setToolStatus wildcardBinding "a" ToolStatus.disabled ["a", "b"]).enabledTools
          = (["a", "b"]).filter (fun x => x != "a") ∧
      getInitialStatus (setToolStatus wildcardBinding "a" ToolStatus.disabled ["a", "b"]) "a"
          = ToolStatus.disabled ∧
      ("b" ≠ "a" →
        getInitialStatus (setToolStatus wildcardBinding "a" ToolStatus.disabled ["a", "b"]) "b"
          = ToolStatus.alwaysAllow)) :=
  ⟨⟨by decide, by decide⟩,
    disable_from_wildcard_explicit "a" "b" ["a", "b"] (by decide) (by decide)⟩

/-- Claim C4 counterexample: the claim as stated is false on the code.
Setting `"a"` to `needs_approval` while the policy is explicit over the
universe `["a", "b"]` (with `"b"` enabled and `"a"` mapped `disabled`)
collapses the legacy array to the wildcard sentinel, yet the resulting
policy does not evaluate every tool to `always_allow` — `"a"` stays
`needs_approval` in the status map.  The collapse test of
`handleStatusChange` checks only the legacy enabled-tools coverage, in
which a needs-approval tool counts as enabled. -/
theorem enable_collapse_not_iff_allAlwaysAllow :
    ¬ ((setToolStatus
          { tools := some [("a", ToolStatus.disabled)], enabledTools := ["b"] }
          "a" ToolStatus.needsApproval ["a", "b"]).enabledTools = ["*"]
        ↔ ∀ n ∈ ["a", "b"],
            getInitialStatus
              (setToolStatus
                { tools := some [("a", ToolStatus.disabled)], enabledTools := ["b"] }
                "a" ToolStatus.needsApproval ["a", "b"]) n = ToolStatus.alwaysAllow) := by
  decide

/-- Claim C4 (amended): setting a tool `T` to a non-disabled status while
the policy is explicit collapses the legacy enabled-tools array back to the
wildcard sentinel if and only if every name of the (duplicate-free) tool
universe is covered — already enabled or equal to `T` — i.e. no tool is
left `disabled`; tools mapped `needs_approval` count as enabled and do not
prevent the collapse. -/
theorem enable_collapse_iff_coverage (b : AgentServerBinding) (T : String)
    (s : ToolStatus) (A : List String)
    (hs : s ≠ ToolStatus.disabled)
    (hexp : "*" ∉ b.enabledTools) (hstar : "*" ∉ A)
    (hA : A.Nodup) (hE : b.enabledTools.Nodup)
    (hsub : ∀ x ∈ b.enabledTools, x ∈ A) (hT : T ∈ A) :
    (setToolStatus b T s A).enabledTools = ["*"]
      ↔ ∀ n ∈ A, n ∈ b.enabledTools ∨ n = T := by
  have hTstar : T ≠ "*" := fun h => hstar (h ▸ hT)
  simp only [setToolStatus, updatedEnabledTools]
  rw [if_pos hs, if_neg (fun h => hexp (List.elem_iff.mp h))]
  by_cases hTE : T ∈ b.enabledTools
  · rw [if_pos (contains_true_of_mem hTE)]
    refine collapse_cond_iff A b.enabledTools b.enabledTools T hA hE hexp ?_ hsub hT
    intro x
    constructor
    · exact fun hx => Or.inl hx
    · rintro (hx | rfl)
      · exact hx
      · exact hTE
  · rw [if_neg (fun h => hTE (List.elem_iff.mp h))]
    refine collapse_cond_iff A b.enabledTools (b.enabledTools ++ [T]) T hA ?_ ?_ ?_ hsub hT
    · exact List.nodup_append.mpr ⟨hE, List.nodup_singleton T,
        by intro x hx hx2; simp at hx2; exact hTE (hx2 ▸ hx)⟩
    · intro hmem
      rcases List.mem_append.mp hmem with h | h
      · exact hexp h
      · simp at h
        exact hTstar h.symm
    · intro x
      rw [List.mem_append]
      simp

/-- Witness for the amended C4: enabling `"a"` as always-allow over the
universe `["a", "b"]` with `"b"` already enabled covers the universe, so
the array collapses to the wildcard sentinel. -/
theorem enable_collapse_iff_coverage_witness :
    (ToolStatus.alwaysAllow ≠ ToolStatus.disabled ∧ "a" ∈ ["a", "b"]) ∧
    ((setToolStatus { tools := some [("a", ToolStatus.disabled)], enabledTools := ["b"] }
        "a" ToolStatus.alwaysAllow ["a", "b"]).enabledTools = ["*"]
      ↔ ∀ n ∈ ["a", "b"], n ∈ ["b"] ∨ n = "a") :=
  ⟨⟨by decide, by decide⟩,
    enable_collapse_iff_coverage
      { tools := some [("a", ToolStatus.disabled)], enabledTools := ["b"] }
      "a" ToolStatus.alwaysAllow ["a", "b"]
      (by decide) (by decide) (by decide) (by decide) (by decide) (by decide)
      (by decide)⟩

/-- Claim C5: every `SetToolStatus` mutation yields a legacy enabled-tools
array that is either exactly the wildcard sentinel `["*"]` or contains no
wildcard at all — the sentinel is never mixed with named entries, for any
starting representation, provided tool names are literal (the universe and
the mutated tool are not the sentinel). -/
theorem wildcard_sentinel_never_mixed (b : AgentServerBinding) (T : String)
    (s : ToolStatus) (A : List String)
    (hstar : "*" ∉ A) (hT : T ≠ "*") :
    (setToolStatus b T s A).enabledTools = ["*"]
      ∨ "*" ∉ (setToolStatus b T s A).enabledTools := by
  simp only [setToolStatus, updatedEnabledTools]
  split
  · split
    · exact Or.inl rfl
    · rename_i hw
      have hwmem : "*" ∉ b.enabledTools := by
        intro hmem
        exact hw (contains_true_of_mem hmem)
      split
      · split
        · exact Or.inl rfl
        · exact Or.inr hwmem
      · split
        · exact Or.inl rfl
        · refine Or.inr ?_
          intro hmem
          rcases List.mem_append.mp hmem with h | h
          · exact hwmem h
          · simp at h
            exact hT h.symm
  · split
    · refine Or.inr ?_
      intro hmem
      exact hstar (List.mem_filter.mp hmem).1
    · rename_i hw
      refine Or.inr ?_
      intro hmem
      exact hw (contains_true_of_mem (List.mem_filter.mp hmem).1)

/-- Witness for C5: disabling `"a"` on the wildcard binding over
`["a", "b"]` yields a sentinel-free array. -/
theorem wildcard_sentinel_never_mixed_witness :
    (("*" ∉ ["a", "b"]) ∧ "a" ≠ "*") ∧
    ((setToolStatus wildcardBinding "a" ToolStatus.disabled ["a", "b"]).enabledTools
        = ["*"]
      ∨ "*" ∉ (setToolStatus wildcardBinding "a" ToolStatus.disabled ["a", "b"]).enabledTools) :=
  ⟨⟨by decide, by decide⟩,
    wildcard_sentinel_never_mixed wildcardBinding "a" ToolStatus.disabled ["a", "b"]
      (by decide) (by decide)⟩

/-- Claim C6: for a live (unexpired) session, `handleCallback` with the
matching state succeeds, publishes the code exactly once on the channel
keyed by that state (so exactly one waiter on that key receives it) and
deletes the session; a second `handleCallback` with the same state then
yields `InvalidState` and publishes nothing. -/
theorem handleCallback_single_use (st : BrokerState) (sess : AuthorizationSession)
    (s code code2 : String) (now now2 : Nat)
    (hlook : st.sessions.lookup s = some sess)
    (hlive : now < sess.expiresAt) :
    (handleCallback st code s now).1 = CallbackResult.ok ∧
    (handleCallback st code s now).2.2 = [{ key := s, code := code }] ∧
    ((handleCallback st code s now).2.1).sessions.lookup s = none ∧
    (handleCallback (handleCallback st code s now).2.1 code2 s now2).1
        = CallbackResult.invalidState ∧
    (handleCallback (handleCallback st code s now).2.1 code2 s now2).2.2 = [] := by
  have h1 : handleCallback st code s now =
      (CallbackResult.ok,
        { sessions := st.sessions.filter (fun p => p.1 != s) },
        [{ key := s, code := code }]) := by
    simp [handleCallback, hlook, hlive]
  have h2 : ((handleCallback st code s now).2.1).sessions.lookup s = none := by
    rw [h1]
    exact lookup_filter_self_none _ _
  have h3 : ∀ st2 : BrokerState, st2.sessions.lookup s = none →
      handleCallback st2 code2 s now2 = (CallbackResult.invalidState, st2, []) := by
    intro st2 hnone
    simp [handleCallback, hnone]
  have h4 := h3 (handleCallback st code s now).2.1 h2
  exact ⟨by rw [h1], by rw [h1], h2, by rw [h4], by rw [h4]⟩

/-- Witness for C6 on the concrete broker store with the single live
session `abc123` expiring at 300, called at times 0 and 1. -/
theorem handleCallback_single_use_witness :
    (sampleBroker.sessions.lookup "abc123" = some sampleSession
      ∧ 0 < sampleSession.expiresAt) ∧
    ((handleCallback sampleBroker "codeXYZ" "abc123" 0).1 = CallbackResult.ok ∧
      (handleCallback sampleBroker "codeXYZ" "abc123" 0).2.2
          = [{ key := "abc123", code := "codeXYZ" }] ∧
      ((handleCallback sampleBroker "codeXYZ" "abc123" 0).2.1).sessions.lookup "abc123"
          = none ∧
      (handleCallback (handleCallback sampleBroker "codeXYZ" "abc123" 0).2.1
          "codeXYZ" "abc123" 1).1 = CallbackResult.invalidState ∧
      (handleCallback (handleCallback sampleBroker "codeXYZ" "abc123" 0).2.1
          "codeXYZ" "abc123" 1).2.2 = []) :=
  ⟨⟨rfl, by decide⟩,
    handleCallback_single_use sampleBroker sampleSession "abc123" "codeXYZ" "codeXYZ"
      0 1 rfl (by decide)⟩

/-- Claim C7: resolving a pending approval is idempotent — approving a
pending record once makes it terminal (`approved`), and a second
`resolveCall` on the same call id leaves the store unchanged and returns
the same original resolution; twice in a row equals once. -/
theorem resolve_twice_eq_once (store : List (String × PendingApproval))
    (callId : String) (p : PendingApproval) (t1 t2 : Nat)
    (hlook : store.lookup callId = some p)
    (hpending : p.resolution = ApprovalResolution.pending) :
    resolveCall (resolveCall store callId true t1).1 callId true t2
        = ((resolveCall store callId true t1).1,
            (resolveCall store callId true t1).2) ∧
    (resolveCall store callId true t1).2 = some ApprovalResolution.approved := by
  have hq2 : (resolveApproval p true t1).2 = ApprovalResolution.approved := by
    simp [resolveApproval, hpending]
  have hq1 : (resolveApproval p true t1).1.resolution = ApprovalResolution.approved := by
    simp [resolveApproval, hpending]
  have h1 := resolveCall_state store callId true t1 p hlook
  have hlook2 : (resolveCall store callId true t1).1.lookup callId
      = some (resolveApproval p true t1).1 := by
    rw [h1]
    exact lookup_map_set store callId _ p hlook
  have h2 := resolveCall_state (resolveCall store callId true t1).1 callId true t2
      (resolveApproval p true t1).1 hlook2
  have hq3 := resolveApproval_terminal (resolveApproval p true t1).1 true t2 hq1
  refine ⟨?_, by rw [h1, hq2]⟩
  rw [h2, hq3]
  rw [h1]
  simp only [Prod.mk.injEq]
  exact ⟨map_set_idem store callId (resolveApproval p true t1).1, by rw [hq2]⟩

/-- Witness for C7 on the concrete store holding the single pending record
`call1`, approved at times 1 and 2. -/
theorem resolve_twice_eq_once_witness :
    (sampleApprovalStore.lookup "call1" = some samplePending
      ∧ samplePending.resolution = ApprovalResolution.pending) ∧
    (resolveCall (resolveCall sampleApprovalStore "call1" true 1).1 "call1" true 2
        = ((resolveCall sampleApprovalStore "call1" true 1).1,
            (resolveCall sampleApprovalStore "call1" true 1).2) ∧
      (resolveCall sampleApprovalStore "call1" true 1).2
          = some ApprovalResolution.approved) :=
  ⟨⟨rfl, rfl⟩,
    resolve_twice_eq_once sampleApprovalStore "call1" samplePending 1 2 rfl rfl⟩

/-- Claim C8: every response of the modelled list-tools endpoint is either
the 200 tool-list outcome or the 401 outcome carrying an
`auth_url`/`state` body; the client recognizer fires exactly on the 401
outcome, and in general it accepts exactly the shape "failure present,
status 401, body has `auth_url`". -/
theorem listTools_shape_and_client_trigger :
    (∀ (hasValidToken : Bool) (tools : List String) (authUrl state : String),
      listToolsEndpoint hasValidToken tools authUrl state = ListToolsOutcome.ok tools
        ∨ listToolsEndpoint hasValidToken tools authUrl state
            = ListToolsOutcome.authRequired authUrl state)
    ∧ (∀ (hasValidToken : Bool) (tools : List String) (authUrl state : String),
        isOAuthRequiredError
            (outcomeFailure (listToolsEndpoint hasValidToken tools authUrl state)) = true
          ↔ listToolsEndpoint hasValidToken tools authUrl state
              = ListToolsOutcome.authRequired authUrl state)
    ∧ (∀ e : Option ApiFailure,
        isOAuthRequiredError e = true
          ↔ ∃ f, e = some f ∧ f.status = 401 ∧ "auth_url" ∈ f.bodyFields) := by
  refine ⟨?_, ?_, ?_⟩
  · intro hasValidToken tools authUrl state
    cases hasValidToken <;> simp [listToolsEndpoint]
  · intro hasValidToken tools authUrl state
    cases hasValidToken <;>
      simp [listToolsEndpoint, outcomeFailure, isOAuthRequiredError]
  · intro e
    cases e with
    | none => simp [isOAuthRequiredError]
    | some f =>
      simp only [isOAuthRequiredError, Bool.and_eq_true, beq_iff_eq,
        Option.some.injEq]
      constructor
      · rintro ⟨h1, h2⟩
        exact ⟨f, rfl, h1, List.elem_iff.mp h2⟩
      · rintro ⟨g, rfl, h1, h2⟩
        exact ⟨h1, contains_true_of_mem h2⟩

/-- Claim C9: when the PATCH persisting a tool-status change fails, the
handler restores the previously displayed status and the persisted binding
is untouched — a failed mutation leaves the observable state exactly as it
was. -/
theorem handleStatusChange_failed_patch_is_noop (st : ToolRowState)
    (toolName : String) (newStatus : ToolStatus) (allToolNames : List String) :
    handleStatusChange st toolName newStatus allToolNames false = st := by
  cases st
  rfl

/-- Claim C10: the connection poll started after a 401 queries at the fixed
2-second interval and is cancelled by the 60-second cutoff, so in a run
where the provider never connects the loop executes exactly 30 ticks, each
due no later than 60 seconds — the loop terminates within the cutoff. -/
theorem pollLoop_terminates :
    (∀ t ∈ pollTicks pollIntervalMs pollTimeoutMs, t ≤ pollTimeoutMs)
      ∧ (pollTicks pollIntervalMs pollTimeoutMs).length = 30 := by
  refine ⟨pollTicks_le_timeout pollIntervalMs pollTimeoutMs, ?_⟩
  simp [pollTicks, pollIntervalMs, pollTimeoutMs]

end Auxilia
